import Mathlib

/-!
Verification of kubecap (main.go).

The tool reports per-node memory headroom in a Kubernetes cluster: it groups
pods by node (the pod index), and for each node reported by the node-metrics
listing computes free, schedulable, and headroom-with-additional-memory
values, flags nodes with insufficient headroom, and scans containers on
insufficient nodes for evictable candidates (usage above request).

The embedding below mirrors main.go:
  - a resource.Quantity is represented by its integer value (the result of
    the Value method); the Memory accessor of a ResourceList returns a
    zero-valued quantity, never a nil pointer, when the memory key is absent,
    so it is modelled as Option Int together with memoryValue;
  - 64-bit signed arithmetic in the node computation wraps (wrap64);
  - the external collaborators (argument parsing, config and client
    construction, the three up-front list calls, and the per-node Get call)
    are modelled as an environment of call results; a failing call makes the
    whole run fail with the underlying error, mirroring the fail-fast abort;
  - the efficiency column (a float64 quotient) is deliberately not embedded:
    IEEE 754 behaviour is outside the scope of this development.
-/

namespace Kubecap

/-- Go string comparison (the < operator on strings), modelled as
lexicographic comparison of the character sequences; this coincides with the
byte-wise comparison Go performs on the ASCII names of Kubernetes objects. -/
def charListLt : List Char → List Char → Bool
  | _, [] => false
  | [], _ :: _ => true
  | a :: as, b :: bs =>
    if a < b then true
    else if b < a then false
    else charListLt as bs

/-- Strict string order used by the sort comparator in main. -/
def strLt (a b : String) : Bool := charListLt a.data b.data

/-- The non-strict order a comparison sort driven by the less function
strLt establishes between adjacent elements. -/
def strLe (a b : String) : Bool := ! strLt b a

/-- corev1.Container: name plus the memory entries of Resources.Requests and
Resources.Limits (none when the resource list has no memory key). -/
structure Container where
  name : String
  requestsMemory : Option Int
  limitsMemory : Option Int
deriving DecidableEq

/-- corev1.Pod: namespace, name, assigned node (empty string when the pod has
no assigned node), and containers. -/
structure Pod where
  ns : String
  name : String
  nodeName : String
  containers : List Container
deriving DecidableEq

/-- One container entry of a PodMetrics item: name and the memory key of its
usage map (none when the map has no memory key, the not-ok lookup case). -/
structure ContainerMetrics where
  name : String
  usageMemory : Option Int
deriving DecidableEq

/-- One item of the pod-metrics listing. -/
structure PodMetrics where
  ns : String
  name : String
  containers : List ContainerMetrics
deriving DecidableEq

/-- One item of the node-metrics listing: node name and the value of its
memory usage quantity. -/
structure NodeMetrics where
  name : String
  usageMemory : Int
deriving DecidableEq

/-- corev1.Node as used by main: name and the value of the allocatable
memory quantity. -/
structure Node where
  name : String
  allocatableMemory : Int
deriving DecidableEq

/-- The Memory accessor of a ResourceList composed with Value: the stored
value when the memory key is present, and the value of a fresh zero quantity
(never a nil pointer) when it is absent. -/
def memoryValue : Option Int → Int
  | some v => v
  | none => 0

/-- type NodePods map[string][]*corev1.Pod, modelled as the total lookup
function of the map (a key the map does not hold yields the empty slice). -/
abbrev NodePods : Type := String → List Pod

/-- NodePods.add: pods with an empty node name are dropped; otherwise the pod
(a deep copy in the source, an immutable value here) is appended to the slice
of its node. -/
def NodePods.add (nps : NodePods) (p : Pod) : NodePods :=
  if p.nodeName = "" then nps
  else fun n => if n = p.nodeName then nps p.nodeName ++ [p] else nps n

/-- NewNodePods: fold the pod listing through add, starting from the empty
map. -/
def NewNodePods (podList : List Pod) : NodePods :=
  podList.foldl NodePods.add fun _ => []

/-- NodePods.MemoryRequests: starting from a zero quantity, add the memory
request of every container of every pod held under the node name; a missing
key returns the zero total. -/
def NodePods.MemoryRequests (nps : NodePods) (nodeName : String) : Int :=
  ((nps nodeName).map fun pod =>
    (pod.containers.map fun c => memoryValue c.requestsMemory).sum).sum

/-- Go int64 two's-complement wrap-around: the arithmetic result reduced
into the interval from -2^63 (inclusive) to 2^63 (exclusive). -/
def wrap64 (x : Int) : Int := (x + 2 ^ 63) % 2 ^ 64 - 2 ^ 63

/-- The Go conversion int64(u) of a uint64 value. -/
def int64OfUInt64 (u : Nat) : Int := wrap64 u

/-- One row of the per-node summary table (the efficiency column, a float64
quotient, is not embedded). -/
structure NodeRow where
  name : String
  allocatable : Int
  used : Int
  free : Int
  requests : Int
  schedulable : Int
  freeWithAdditional : Int
  schedulableWithAdditional : Int
  enough : Bool
deriving DecidableEq

/-- One row of the evictable-candidates table. -/
structure EvictableRow where
  node : String
  ns : String
  pod : String
  container : String
  requests : Int
  used : Int
  limits : Int
deriving DecidableEq

/-- The evictable-candidate scan for one container of one pod: the body of
the container loop of main on an insufficient node. Containers with a
zero-valued request are skipped, containers whose request compares greater
than or equal to their limit are skipped, and otherwise every entry of the
pod-metrics listing with matching namespace and pod name is visited, and
every container entry of it with matching name and a present memory usage
above the declared request appends one table row (the loop carries no break,
so each matching entry appends its own row). -/
def scanContainer (podMetricsList : List PodMetrics) (nodeName : String)
    (pod : Pod) (c : Container) : List EvictableRow :=
  let memReq := memoryValue c.requestsMemory
  let memLim := memoryValue c.limitsMemory
  if memReq = 0 then []
  else if memLim ≤ memReq then []
  else
    podMetricsList.flatMap fun pm =>
      if pm.ns ≠ pod.ns then []
      else if pm.name ≠ pod.name then []
      else
        pm.containers.flatMap fun pmc =>
          if pmc.name ≠ c.name then []
          else
            match pmc.usageMemory with
            | none => []
            | some memUsed =>
              if memReq < memUsed then
                [{ node := nodeName, ns := pod.ns, pod := pod.name,
                   container := c.name, requests := memReq, used := memUsed,
                   limits := memLim }]
              else []

/-- The full scan of an insufficient node: every container of every pod the
index holds under the node name. -/
def scanNode (podMetricsList : List PodMetrics) (nps : NodePods)
    (nodeName : String) : List EvictableRow :=
  (nps nodeName).flatMap fun pod =>
    pod.containers.flatMap fun c => scanContainer podMetricsList nodeName pod c

/-- Insertion of one node-metrics item into a list already ascending by
name. -/
def insertNM (nm : NodeMetrics) : List NodeMetrics → List NodeMetrics
  | [] => [nm]
  | x :: xs =>
    if strLe nm.name x.name then nm :: x :: xs else x :: insertNM nm xs

/-- The sort of the node-metrics items by name performed before the node
loop (sort.Slice with the less function comparing names with strLt):
sort.Slice promises exactly an ascending reordering, so it is modelled by a
comparison sort with the induced non-strict comparator (insertion sort,
whose result is ascending by name and a permutation of the input). -/
def sortNodeMetrics (items : List NodeMetrics) : List NodeMetrics :=
  items.foldr insertNM []

/-- The external collaborators of main, as the results their calls return:
argument parsing (a uint64 byte count), config and client construction, the
three up-front list calls, and the per-node Get call. An error value models
the call failing, upon which main aborts with the underlying error
message. -/
structure Env where
  parseBytes : Except String Nat
  buildConfigFromFlags : Except String Unit
  newKubernetesClient : Except String Unit
  newMetricsClient : Except String Unit
  listNodeMetrics : Except String (List NodeMetrics)
  listPodMetrics : Except String (List PodMetrics)
  listPods : Except String (List Pod)
  getNode : String → Except String Node

/-- The body of the node loop of main for one node-metrics item: fetch the
node, compute the headroom figures, scan for evictable candidates when the
headroom is insufficient, and produce the summary row together with the
evictable rows this node appends. -/
def processNode (env : Env) (additional : Nat) (nps : NodePods)
    (podMetricsList : List PodMetrics) (nodeMetric : NodeMetrics) :
    Except String (NodeRow × List EvictableRow) := do
  let name := nodeMetric.name
  let used := nodeMetric.usageMemory
  let node ← env.getNode name
  let allocatable := node.allocatableMemory
  let free := wrap64 (allocatable - used)
  let requests := nps.MemoryRequests node.name
  let schedulable := wrap64 (allocatable - requests)
  let fwa := wrap64 (free - int64OfUInt64 additional)
  let swa := wrap64 (schedulable - int64OfUInt64 additional)
  let enough := decide (0 < fwa) && decide (0 < swa)
  let evict := if enough then [] else scanNode podMetricsList nps node.name
  return ({ name := name, allocatable := allocatable, used := used,
            free := free, requests := requests, schedulable := schedulable,
            freeWithAdditional := fwa, schedulableWithAdditional := swa,
            enough := enough }, evict)

/-- The node loop of main over the sorted node-metrics items, accumulating
the summary rows in order and the evictable rows in order of appending. -/
def processNodes (env : Env) (additional : Nat) (nps : NodePods)
    (podMetricsList : List PodMetrics) :
    List NodeMetrics → Except String (List NodeRow × List EvictableRow)
  | [] => Except.ok ([], [])
  | nm :: rest => do
    let (row, evict) ← processNode env additional nps podMetricsList nm
    let (rows, evicts) ← processNodes env additional nps podMetricsList rest
    return (row :: rows, evict ++ evicts)

/-- The rendered output of a successful run: the two tables, as the ordered
lists of their rows. -/
structure Output where
  nodeRows : List NodeRow
  evictableRows : List EvictableRow
deriving DecidableEq

/-- main: parse the additional amount, build the config and the two clients,
perform the three list calls, build the pod index, sort the node-metrics
items by name, run the node loop, and render both tables. A failing call
aborts the run with its error; the tables are only rendered at the very end,
so a failed run produces no output at all. -/
def run (env : Env) : Except String Output := do
  let additional ← env.parseBytes
  let _ ← env.buildConfigFromFlags
  let _ ← env.newKubernetesClient
  let _ ← env.newMetricsClient
  let nodeMetricsList ← env.listNodeMetrics
  let podMetricsList ← env.listPodMetrics
  let podList ← env.listPods
  let nps := NewNodePods podList
  let sorted := sortNodeMetrics nodeMetricsList
  let res ← processNodes env additional nps podMetricsList sorted
  return { nodeRows := res.1, evictableRows := res.2 }

/-- The observable cluster interactions and computation steps of a run, in
program order: the three list reads, then, per node of the sorted
node-metrics items, the Get read followed by the headroom computation. -/
inductive Event : Type
  | readNodeMetricsList : Event
  | readPodMetricsList : Event
  | readPodList : Event
  | readNodeGet (name : String) : Event
  | computeNode (name : String) : Event
deriving DecidableEq

/-- Whether an event is a cluster read (everything except a computation
step). -/
def Event.isRead : Event → Bool
  | .computeNode _ => false
  | _ => true

/-- The events of the node loop: for each item, the Get read, then, when the
Get succeeds, the computation of that node; a failing Get truncates the
run. -/
def nodeLoopTrace (env : Env) : List NodeMetrics → List Event
  | [] => []
  | nm :: rest =>
    match env.getNode nm.name with
    | Except.error _ => [Event.readNodeGet nm.name]
    | Except.ok _ =>
      Event.readNodeGet nm.name :: Event.computeNode nm.name ::
        nodeLoopTrace env rest

/-- The event trace of a run, in the order main performs the calls: node
metrics listing, pod metrics listing, pod listing, then the node loop. A
failure before the listings produces no events; a failing listing truncates
the trace. -/
def runTrace (env : Env) : List Event :=
  if (env.parseBytes.isOk && env.buildConfigFromFlags.isOk &&
      env.newKubernetesClient.isOk && env.newMetricsClient.isOk) = false then
    []
  else
    Event.readNodeMetricsList ::
      match env.listNodeMetrics with
      | Except.error _ => []
      | Except.ok nodeMetricsList =>
        Event.readPodMetricsList ::
          match env.listPodMetrics with
          | Except.error _ => []
          | Except.ok _ =>
            Event.readPodList ::
              match env.listPods with
              | Except.error _ => []
              | Except.ok _ => nodeLoopTrace env (sortNodeMetrics nodeMetricsList)

/-- The property the spec asserts of the trace: all cluster reads happen up
front, before any computation step, so after the first computation step no
read occurs. -/
def readsUpFront (tr : List Event) : Bool :=
  (tr.dropWhile Event.isRead).all fun e => ! e.isRead

/-- The summary row the loop body computes for one node-metrics item, given
the fetched node. -/
def nodeRowFor (additional : Nat) (nps : NodePods) (nm : NodeMetrics)
    (node : Node) : NodeRow :=
  let free := wrap64 (node.allocatableMemory - nm.usageMemory)
  let requests := nps.MemoryRequests node.name
  let schedulable := wrap64 (node.allocatableMemory - requests)
  let fwa := wrap64 (free - int64OfUInt64 additional)
  let swa := wrap64 (schedulable - int64OfUInt64 additional)
  { name := nm.name, allocatable := node.allocatableMemory,
    used := nm.usageMemory, free := free, requests := requests,
    schedulable := schedulable, freeWithAdditional := fwa,
    schedulableWithAdditional := swa,
    enough := decide (0 < fwa) && decide (0 < swa) }

/-- The evictable rows the loop body appends for one node-metrics item:
none when the node has enough headroom, the node scan otherwise. -/
def nodeEvictsFor (additional : Nat) (nps : NodePods)
    (podMetricsList : List PodMetrics) (nm : NodeMetrics) (node : Node) :
    List EvictableRow :=
  if (nodeRowFor additional nps nm node).enough then []
  else scanNode podMetricsList nps node.name

/-- The sorted node-metrics items a run processes, empty when the listing
itself failed. -/
def sortedMetricsOf (env : Env) : List NodeMetrics :=
  match env.listNodeMetrics with
  | Except.ok items => sortNodeMetrics items
  | Except.error _ => []

/-- All external calls a run performs succeed: the up-front calls, and the
per-node Get for every node the loop visits. -/
def envAllOk (env : Env) : Prop :=
  env.parseBytes.isOk = true ∧ env.buildConfigFromFlags.isOk = true ∧
  env.newKubernetesClient.isOk = true ∧ env.newMetricsClient.isOk = true ∧
  env.listNodeMetrics.isOk = true ∧ env.listPodMetrics.isOk = true ∧
  env.listPods.isOk = true ∧
  ∀ nm ∈ sortedMetricsOf env, (env.getNode nm.name).isOk = true

/-- The error e is the underlying error of one of the external calls of the
run (for the per-node Get, of a node the loop visits). -/
def envHasError (env : Env) (e : String) : Prop :=
  env.parseBytes = Except.error e ∨
  env.buildConfigFromFlags = Except.error e ∨
  env.newKubernetesClient = Except.error e ∨
  env.newMetricsClient = Except.error e ∨
  env.listNodeMetrics = Except.error e ∨
  env.listPodMetrics = Except.error e ∨
  env.listPods = Except.error e ∨
  ∃ nm ∈ sortedMetricsOf env, env.getNode nm.name = Except.error e

/-- The number of pod-metrics entries matching a pod whose container entry
matches a container with a present memory usage above the declared request:
with no break in the scan loops, each of them appends its own row. -/
def overRequestMatches (pml : List PodMetrics) (pod : Pod) (c : Container) :
    Nat :=
  (pml.map fun pm =>
    if pm.ns = pod.ns ∧ pm.name = pod.name then
      pm.containers.countP fun pmc =>
        decide (pmc.name = c.name) &&
          match pmc.usageMemory with
          | some u => decide (memoryValue c.requestsMemory < u)
          | none => false
    else 0).sum

/-! ### Concrete inputs used by the witnesses and counterexamples -/

/-- A pod requesting 950 bytes of memory on node n. -/
def C1pod : Pod :=
  { ns := "default", name := "p", nodeName := "n",
    containers := [{ name := "c", requestsMemory := some 950,
                     limitsMemory := none }] }

/-- The boundary example of the spec: allocatable 1000, used 900, requests
950, additional 100. -/
def C1env : Env :=
  { parseBytes := Except.ok 100, buildConfigFromFlags := Except.ok (),
    newKubernetesClient := Except.ok (), newMetricsClient := Except.ok (),
    listNodeMetrics := Except.ok [{ name := "n", usageMemory := 900 }],
    listPodMetrics := Except.ok [], listPods := Except.ok [C1pod],
    getNode := fun s => Except.ok { name := s, allocatableMemory := 1000 } }

/-- The summary row of the boundary example: free 100, schedulable 50,
freeWithAdditional exactly 0, flagged insufficient. -/
def C1row : NodeRow :=
  { name := "n", allocatable := 1000, used := 900, free := 100,
    requests := 950, schedulable := 50, freeWithAdditional := 0,
    schedulableWithAdditional := -50, enough := false }

/-- A container with request 100 and limit 500. -/
def C2c : Container :=
  { name := "c", requestsMemory := some 100, limitsMemory := some 500 }

/-- The pod of the container with request 100 and limit 500, on node n. -/
def C2pod : Pod :=
  { ns := "default", name := "p", nodeName := "n", containers := [C2c] }

/-- A live metrics entry of the same container with usage 150. -/
def C2pmc : ContainerMetrics := { name := "c", usageMemory := some 150 }

/-- The pod-metrics entry holding that container entry. -/
def C2pm : PodMetrics :=
  { ns := "default", name := "p", containers := [C2pmc] }

/-- An environment with one node whose usage 1000 exceeds its allocatable 0,
so the node is flagged insufficient and scanned. -/
def C2env : Env :=
  { parseBytes := Except.ok 0, buildConfigFromFlags := Except.ok (),
    newKubernetesClient := Except.ok (), newMetricsClient := Except.ok (),
    listNodeMetrics := Except.ok [{ name := "n", usageMemory := 1000 }],
    listPodMetrics := Except.ok [C2pm], listPods := Except.ok [C2pod],
    getNode := fun s => Except.ok { name := s, allocatableMemory := 0 } }

/-- The summary row the insufficient node of C2env produces. -/
def C2row : NodeRow :=
  { name := "n", allocatable := 0, used := 1000, free := -1000,
    requests := 100, schedulable := -100, freeWithAdditional := -1000,
    schedulableWithAdditional := -100, enough := false }

/-- The evictable-candidate record of the container with request 100, usage
150, limit 500 on node n. -/
def C2rec : EvictableRow :=
  { node := "n", ns := "default", pod := "p", container := "c",
    requests := 100, used := 150, limits := 500 }

/-- Pods for the pod-index example: one pod on node n1 with one requesting
container and one container lacking a request, and one pod with no assigned
node. -/
def C3pods : List Pod :=
  [{ ns := "a", name := "p1", nodeName := "n1",
     containers := [{ name := "c1", requestsMemory := some 5,
                      limitsMemory := none },
                    { name := "c2", requestsMemory := none,
                      limitsMemory := none }] },
   { ns := "a", name := "p2", nodeName := "",
     containers := [{ name := "c3", requestsMemory := some 7,
                      limitsMemory := none }] }]

/-- A pod-metrics listing holding the same matching entry twice. -/
def C4env : Env :=
  { parseBytes := Except.ok 0, buildConfigFromFlags := Except.ok (),
    newKubernetesClient := Except.ok (), newMetricsClient := Except.ok (),
    listNodeMetrics := Except.ok [{ name := "n", usageMemory := 1000 }],
    listPodMetrics := Except.ok [C2pm, C2pm], listPods := Except.ok [C2pod],
    getNode := fun s => Except.ok { name := s, allocatableMemory := 0 } }

/-- An environment with two nodes, to exhibit the per-node Get interleaved
with the computation loop. -/
def C6env : Env :=
  { parseBytes := Except.ok 0, buildConfigFromFlags := Except.ok (),
    newKubernetesClient := Except.ok (), newMetricsClient := Except.ok (),
    listNodeMetrics := Except.ok [{ name := "a", usageMemory := 0 },
                                  { name := "b", usageMemory := 0 }],
    listPodMetrics := Except.ok [], listPods := Except.ok [],
    getNode := fun s => Except.ok { name := s, allocatableMemory := 0 } }

/-- An environment whose node-metrics listing is out of order. -/
def C7env : Env :=
  { parseBytes := Except.ok 0, buildConfigFromFlags := Except.ok (),
    newKubernetesClient := Except.ok (), newMetricsClient := Except.ok (),
    listNodeMetrics := Except.ok [{ name := "b", usageMemory := 0 },
                                  { name := "a", usageMemory := 0 }],
    listPodMetrics := Except.ok [], listPods := Except.ok [],
    getNode := fun s => Except.ok { name := s, allocatableMemory := 1 } }

/-- The summary row of node a in C7env. -/
def C7rowA : NodeRow :=
  { name := "a", allocatable := 1, used := 0, free := 1, requests := 0,
    schedulable := 1, freeWithAdditional := 1, schedulableWithAdditional := 1,
    enough := true }

/-- The summary row of node b in C7env. -/
def C7rowB : NodeRow :=
  { name := "b", allocatable := 1, used := 0, free := 1, requests := 0,
    schedulable := 1, freeWithAdditional := 1, schedulableWithAdditional := 1,
    enough := true }

/-- The output of C7env: rows in ascending name order. -/
def C7out : Output := { nodeRows := [C7rowA, C7rowB], evictableRows := [] }

/-- An environment whose pod listing fails. -/
def C8env : Env :=
  { parseBytes := Except.ok 0, buildConfigFromFlags := Except.ok (),
    newKubernetesClient := Except.ok (), newMetricsClient := Except.ok (),
    listNodeMetrics := Except.ok [{ name := "a", usageMemory := 0 }],
    listPodMetrics := Except.ok [],
    listPods := Except.error "boom",
    getNode := fun s => Except.ok { name := s, allocatableMemory := 0 } }

/-- A container with a positive request and no limit. -/
def C9c : Container :=
  { name := "c", requestsMemory := some 5, limitsMemory := none }

/-- The pod of that container. -/
def C9pod : Pod :=
  { ns := "default", name := "p", nodeName := "n", containers := [C9c] }

/-- A matching metrics entry with usage far above the request. -/
def C9pm : PodMetrics :=
  { ns := "default", name := "p",
    containers := [{ name := "c", usageMemory := some 999 }] }

/-- A pod on node zz, a node absent from the node-metrics listing. -/
def C10pod : Pod :=
  { ns := "default", name := "p", nodeName := "zz",
    containers := [{ name := "c", requestsMemory := some 3,
                     limitsMemory := none }] }

/-- An environment whose node-metrics listing names only node a, while a pod
sits on node zz. -/
def C10env : Env :=
  { parseBytes := Except.ok 0, buildConfigFromFlags := Except.ok (),
    newKubernetesClient := Except.ok (), newMetricsClient := Except.ok (),
    listNodeMetrics := Except.ok [{ name := "a", usageMemory := 5 }],
    listPodMetrics := Except.ok [], listPods := Except.ok [C10pod],
    getNode := fun s => Except.ok { name := s, allocatableMemory := 100 } }

/-- The single summary row of C10env, for node a. -/
def C10row : NodeRow :=
  { name := "a", allocatable := 100, used := 5, free := 95, requests := 0,
    schedulable := 100, freeWithAdditional := 95,
    schedulableWithAdditional := 100, enough := true }

/-- The output of C10env. -/
def C10out : Output := { nodeRows := [C10row], evictableRows := [] }

/-! ### Properties of the string order -/

theorem charListLt_asymm {a b : List Char}
    (h1 : charListLt a b = true) (h2 : charListLt b a = true) : False := by
  induction a generalizing b with
  | nil =>
    cases b with
    | nil => simp [charListLt] at h1
    | cons y ys => simp [charListLt] at h2
  | cons x xs ih =>
    cases b with
    | nil => simp [charListLt] at h1
    | cons y ys =>
      simp only [charListLt] at h1 h2
      by_cases hxy : x < y
      · have hyx : ¬ y < x := lt_asymm hxy
        simp [hxy, hyx] at h2
      · by_cases hyx : y < x
        · simp [hxy, hyx] at h1
        · simp [hxy, hyx] at h1 h2
          exact ih h1 h2

theorem charListLt_trans {a b c : List Char}
    (h1 : charListLt a b = true) (h2 : charListLt b c = true) :
    charListLt a c = true := by
  induction a generalizing b c with
  | nil =>
    cases c with
    | nil => simp [charListLt] at h2
    | cons z zs => simp [charListLt]
  | cons x xs ih =>
    cases b with
    | nil => simp [charListLt] at h1
    | cons y ys =>
      cases c with
      | nil => simp [charListLt] at h2
      | cons z zs =>
        simp only [charListLt] at h1 h2 ⊢
        rcases lt_trichotomy x y with hxy | hxy | hxy
        · rcases lt_trichotomy y z with hyz | hyz | hyz
          · simp [lt_trans hxy hyz]
          · subst hyz; simp [hxy]
          · simp [lt_asymm hyz, hyz] at h2
        · subst hxy
          simp only [lt_irrefl, if_false] at h1
          rcases lt_trichotomy x z with hyz | hyz | hyz
          · simp [hyz]
          · subst hyz
            simp only [lt_irrefl, if_false] at h2 ⊢
            exact ih h1 h2
          · simp [lt_asymm hyz, hyz] at h2
        · simp [lt_asymm hxy, hxy] at h1

theorem charListLt_connex {a b : List Char} (h : a ≠ b) :
    charListLt a b = true ∨ charListLt b a = true := by
  induction a generalizing b with
  | nil =>
    cases b with
    | nil => exact absurd rfl h
    | cons y ys => left; simp [charListLt]
  | cons x xs ih =>
    cases b with
    | nil => right; simp [charListLt]
    | cons y ys =>
      rcases lt_trichotomy x y with hxy | hxy | hxy
      · left; simp [charListLt, hxy]
      · subst hxy
        have hxs : xs ≠ ys := by
          intro he
          exact h (by rw [he])
        rcases ih hxs with h1 | h1
        · left; simp [charListLt, lt_irrefl, h1]
        · right; simp [charListLt, lt_irrefl, h1]
      · right; simp [charListLt, hxy]

theorem string_eq_of_data_eq {a b : String} (h : a.data = b.data) : a = b := by
  cases a
  cases b
  exact congrArg String.mk h

theorem strLe_trans {a b c : String} (h1 : strLe a b = true)
    (h2 : strLe b c = true) : strLe a c = true := by
  simp only [strLe, strLt, Bool.not_eq_true'] at h1 h2 ⊢
  by_contra hca
  rw [Bool.not_eq_false] at hca
  by_cases hbc : b.data = c.data
  · rw [hbc] at h1
    rw [h1] at hca
    exact Bool.false_ne_true hca
  · rcases charListLt_connex hbc with hp | hp
    · have := charListLt_trans hp hca
      rw [h1] at this
      exact Bool.false_ne_true this
    · rw [h2] at hp
      exact Bool.false_ne_true hp

theorem strLe_total (a b : String) : (strLe a b || strLe b a) = true := by
  simp only [strLe, strLt, Bool.not_eq_true']
  by_cases h1 : charListLt b.data a.data = true
  · by_cases h2 : charListLt a.data b.data = true
    · exact absurd (charListLt_asymm h1 h2) not_false
    · simp [Bool.not_eq_true] at h2
      simp [h2]
  · simp [Bool.not_eq_true] at h1
    simp [h1]

theorem strLt_of_strLe_of_ne {a b : String} (h1 : strLe a b = true)
    (h2 : a ≠ b) : strLt a b = true := by
  simp only [strLe, strLt, Bool.not_eq_true'] at h1 ⊢
  have hd : a.data ≠ b.data := fun he => h2 (string_eq_of_data_eq he)
  rcases charListLt_connex hd with hp | hp
  · exact hp
  · rw [h1] at hp
    exact absurd hp Bool.false_ne_true

/-! ### Arithmetic facts about wrap64 -/

theorem wrap64_eq_self {x : Int} (h1 : -(2 ^ 63) ≤ x) (h2 : x < 2 ^ 63) :
    wrap64 x = x := by
  have e63 : (2 : Int) ^ 63 = 9223372036854775808 := by norm_num
  have e64 : (2 : Int) ^ 64 = 18446744073709551616 := by norm_num
  unfold wrap64
  rw [e63] at h1 h2 ⊢
  rw [e64]
  omega

theorem int64OfUInt64_eq_self {u : Nat} (h : (u : Int) < 2 ^ 63) :
    int64OfUInt64 u = (u : Int) := by
  unfold int64OfUInt64
  exact wrap64_eq_self (le_trans (by norm_num) (Int.natCast_nonneg u)) h

/-! ### Characterization of the evictable-candidate scan -/

theorem mem_scanContainer {podMetricsList : List PodMetrics}
    {nodeName : String} {pod : Pod} {c : Container} {r : EvictableRow} :
    r ∈ scanContainer podMetricsList nodeName pod c ↔
      (memoryValue c.requestsMemory ≠ 0 ∧
       memoryValue c.requestsMemory < memoryValue c.limitsMemory ∧
       ∃ pm ∈ podMetricsList, pm.ns = pod.ns ∧ pm.name = pod.name ∧
         ∃ pmc ∈ pm.containers, pmc.name = c.name ∧
           ∃ u, pmc.usageMemory = some u ∧
             memoryValue c.requestsMemory < u ∧
             r = { node := nodeName, ns := pod.ns, pod := pod.name,
                   container := c.name,
                   requests := memoryValue c.requestsMemory, used := u,
                   limits := memoryValue c.limitsMemory }) := by
  unfold scanContainer
  by_cases h0 : memoryValue c.requestsMemory = 0
  · simp [h0]
  · rw [if_neg h0]
    by_cases h1 : memoryValue c.limitsMemory ≤ memoryValue c.requestsMemory
    · rw [if_pos h1]
      simp [h0, not_lt.mpr h1]
    · rw [if_neg h1]
      push_neg at h1
      simp only [List.mem_flatMap, h0, h1, ne_eq, not_false_iff, true_and]
      constructor
      · rintro ⟨pm, hpm, hmem⟩
        by_cases hns : pm.ns = pod.ns
        · by_cases hname : pm.name = pod.name
          · rw [if_neg (by simp [hns]), if_neg (by simp [hname])] at hmem
            rw [List.mem_flatMap] at hmem
            obtain ⟨pmc, hpmc, hmemc⟩ := hmem
            by_cases hcn : pmc.name = c.name
            · rw [if_neg (by simp [hcn])] at hmemc
              split at hmemc
              · simp at hmemc
              · rename_i u hu
                split at hmemc
                · rename_i hlt
                  rw [List.mem_singleton] at hmemc
                  exact ⟨pm, hpm, hns, hname,
                    pmc, hpmc, hcn, u, hu, hlt, hmemc⟩
                · simp at hmemc
            · rw [if_pos (by simp [hcn])] at hmemc; simp at hmemc
          · rw [if_neg (by simp [hns]), if_pos (by simp [hname])] at hmem
            simp at hmem
        · rw [if_pos (by simp [hns])] at hmem
          simp at hmem
      · rintro ⟨pm, hpm, hns, hname, pmc, hpmc, hcn, u, hu, hlt, hr⟩
        refine ⟨pm, hpm, ?_⟩
        rw [if_neg (by simp [hns]), if_neg (by simp [hname])]
        rw [List.mem_flatMap]
        refine ⟨pmc, hpmc, ?_⟩
        rw [if_neg (by simp [hcn])]
        simp only [hu]
        rw [if_pos hlt, List.mem_singleton]
        exact hr

/-- Membership in the full scan of one node. -/
theorem mem_scanNode {podMetricsList : List PodMetrics} {nps : NodePods}
    {nodeName : String} {r : EvictableRow} :
    r ∈ scanNode podMetricsList nps nodeName ↔
      ∃ pod ∈ nps nodeName, ∃ c ∈ pod.containers,
        r ∈ scanContainer podMetricsList nodeName pod c := by
  unfold scanNode
  simp [List.mem_flatMap]

/-- Every row the scan of a node produces carries that node in its node
column. -/
theorem scanNode_node {podMetricsList : List PodMetrics} {nps : NodePods}
    {nodeName : String} {r : EvictableRow}
    (h : r ∈ scanNode podMetricsList nps nodeName) : r.node = nodeName := by
  rw [mem_scanNode] at h
  obtain ⟨pod, _, c, _, hmem⟩ := h
  rw [mem_scanContainer] at hmem
  obtain ⟨-, -, pm, -, -, -, pmc, -, -, u, -, -, hr⟩ := hmem
  rw [hr]

/-! ### Evaluation of one node-loop iteration -/

theorem processNode_ok_eq {env : Env} {additional : Nat} {nps : NodePods}
    {podMetricsList : List PodMetrics} {nm : NodeMetrics} {node : Node}
    (hget : env.getNode nm.name = Except.ok node) :
    processNode env additional nps podMetricsList nm =
      Except.ok (nodeRowFor additional nps nm node,
        nodeEvictsFor additional nps podMetricsList nm node) := by
  simp only [processNode, hget]
  rfl

theorem processNode_err_eq {env : Env} {additional : Nat} {nps : NodePods}
    {podMetricsList : List PodMetrics} {nm : NodeMetrics} {e : String}
    (hget : env.getNode nm.name = Except.error e) :
    processNode env additional nps podMetricsList nm = Except.error e := by
  simp only [processNode, hget]
  rfl

/-! ### Reduction of the Except monad -/

theorem except_bind_ok {ε α β : Type} (a : α) (f : α → Except ε β) :
    (Except.ok a >>= f) = f a := rfl

theorem except_bind_err {ε α β : Type} (e : ε) (f : α → Except ε β) :
    ((Except.error e : Except ε α) >>= f) = Except.error e := rfl

theorem except_pure {ε α : Type} (a : α) :
    (pure a : Except ε α) = Except.ok a := rfl

/-! ### The node loop -/

theorem processNodes_ok_inv {env : Env} {additional : Nat} {nps : NodePods}
    {pml : List PodMetrics} {l : List NodeMetrics} {rows : List NodeRow}
    {evicts : List EvictableRow}
    (h : processNodes env additional nps pml l = Except.ok (rows, evicts)) :
    rows.map NodeRow.name = l.map NodeMetrics.name ∧
    ∀ r ∈ evicts, ∃ nm ∈ l, ∃ node, env.getNode nm.name = Except.ok node ∧
      r ∈ nodeEvictsFor additional nps pml nm node := by
  induction l generalizing rows evicts with
  | nil =>
    simp only [processNodes, Except.ok.injEq, Prod.mk.injEq] at h
    obtain ⟨h1, h2⟩ := h
    subst h1
    subst h2
    simp
  | cons nm rest ih =>
    simp only [processNodes] at h
    cases hget : env.getNode nm.name with
    | error e =>
      rw [processNode_err_eq hget, except_bind_err] at h
      exact Except.noConfusion h
    | ok node =>
      simp only [processNode_ok_eq hget, except_bind_ok] at h
      cases hrest : processNodes env additional nps pml rest with
      | error e =>
        rw [hrest, except_bind_err] at h
        exact Except.noConfusion h
      | ok p =>
        obtain ⟨rows', evicts'⟩ := p
        simp only [hrest, except_bind_ok, except_pure, Except.ok.injEq,
          Prod.mk.injEq] at h
        obtain ⟨h1, h2⟩ := h
        subst h1
        subst h2
        obtain ⟨ih1, ih2⟩ := ih hrest
        constructor
        · simp only [List.map_cons, ih1]
          rfl
        · intro r hr
          rw [List.mem_append] at hr
          rcases hr with hr | hr
          · exact ⟨nm, List.mem_cons_self nm rest, node, hget, hr⟩
          · obtain ⟨nm', hnm', node', hget', hmem'⟩ := ih2 r hr
            exact ⟨nm', List.mem_cons_of_mem nm hnm', node', hget', hmem'⟩

theorem processNodes_isOk {env : Env} {additional : Nat} {nps : NodePods}
    {pml : List PodMetrics} {l : List NodeMetrics}
    (h : ∀ nm ∈ l, ∃ node, env.getNode nm.name = Except.ok node) :
    ∃ res, processNodes env additional nps pml l = Except.ok res := by
  induction l with
  | nil => exact ⟨([], []), rfl⟩
  | cons nm rest ih =>
    obtain ⟨node, hget⟩ := h nm (List.mem_cons_self nm rest)
    obtain ⟨⟨rows', evicts'⟩, hrest⟩ :=
      ih fun nm' hnm' => h nm' (List.mem_cons_of_mem nm hnm')
    refine ⟨(nodeRowFor additional nps nm node :: rows',
      nodeEvictsFor additional nps pml nm node ++ evicts'), ?_⟩
    simp only [processNodes, processNode_ok_eq hget, except_bind_ok, hrest,
      except_pure]

theorem processNodes_error {env : Env} {additional : Nat} {nps : NodePods}
    {pml : List PodMetrics} {l : List NodeMetrics} {e : String}
    (h : processNodes env additional nps pml l = Except.error e) :
    ∃ nm ∈ l, env.getNode nm.name = Except.error e := by
  induction l with
  | nil => exact Except.noConfusion h
  | cons nm rest ih =>
    simp only [processNodes] at h
    cases hget : env.getNode nm.name with
    | error e' =>
      rw [processNode_err_eq hget, except_bind_err] at h
      injection h with h
      exact ⟨nm, List.mem_cons_self nm rest, by rw [hget, h]⟩
    | ok node =>
      simp only [processNode_ok_eq hget, except_bind_ok] at h
      cases hrest : processNodes env additional nps pml rest with
      | error e' =>
        rw [hrest, except_bind_err] at h
        injection h with h
        obtain ⟨nm', hnm', hget'⟩ := ih (by rw [hrest, h])
        exact ⟨nm', List.mem_cons_of_mem nm hnm', hget'⟩
      | ok p =>
        obtain ⟨rows', evicts'⟩ := p
        simp only [hrest, except_bind_ok, except_pure] at h
        exact Except.noConfusion h

/-! ### Inversion of a successful run -/

theorem run_ok_inv {env : Env} {out : Output} (h : run env = Except.ok out) :
    ∃ additional items podMetricsList podList rows evicts,
      env.parseBytes = Except.ok additional ∧
      env.listNodeMetrics = Except.ok items ∧
      env.listPodMetrics = Except.ok podMetricsList ∧
      env.listPods = Except.ok podList ∧
      processNodes env additional (NewNodePods podList) podMetricsList
        (sortNodeMetrics items) = Except.ok (rows, evicts) ∧
      out = ⟨rows, evicts⟩ := by
  simp only [run] at h
  cases hp : env.parseBytes with
  | error e => rw [hp, except_bind_err] at h; exact Except.noConfusion h
  | ok additional =>
  simp only [hp, except_bind_ok] at h
  cases hc : env.buildConfigFromFlags with
  | error e => rw [hc, except_bind_err] at h; exact Except.noConfusion h
  | ok u1 =>
  simp only [hc, except_bind_ok] at h
  cases hk : env.newKubernetesClient with
  | error e => rw [hk, except_bind_err] at h; exact Except.noConfusion h
  | ok u2 =>
  simp only [hk, except_bind_ok] at h
  cases hm : env.newMetricsClient with
  | error e => rw [hm, except_bind_err] at h; exact Except.noConfusion h
  | ok u3 =>
  simp only [hm, except_bind_ok] at h
  cases hnm : env.listNodeMetrics with
  | error e => rw [hnm, except_bind_err] at h; exact Except.noConfusion h
  | ok items =>
  simp only [hnm, except_bind_ok] at h
  cases hpm : env.listPodMetrics with
  | error e => rw [hpm, except_bind_err] at h; exact Except.noConfusion h
  | ok podMetricsList =>
  simp only [hpm, except_bind_ok] at h
  cases hpl : env.listPods with
  | error e => rw [hpl, except_bind_err] at h; exact Except.noConfusion h
  | ok podList =>
  simp only [hpl, except_bind_ok] at h
  cases hn : processNodes env additional (NewNodePods podList) podMetricsList
      (sortNodeMetrics items) with
  | error e => rw [hn, except_bind_err] at h; exact Except.noConfusion h
  | ok res =>
  obtain ⟨rows, evicts⟩ := res
  simp only [hn, except_bind_ok, except_pure, Except.ok.injEq] at h
  exact ⟨additional, items, podMetricsList, podList, rows, evicts,
    rfl, rfl, rfl, rfl, hn, h.symm⟩

/-! ### The sort of the node-metrics items -/

theorem insertNM_perm (nm : NodeMetrics) (l : List NodeMetrics) :
    (insertNM nm l).Perm (nm :: l) := by
  induction l with
  | nil => exact List.Perm.refl _
  | cons x xs ih =>
    unfold insertNM
    by_cases hle : strLe nm.name x.name = true
    · rw [if_pos hle]
    · rw [if_neg hle]
      exact (ih.cons x).trans (List.Perm.swap nm x xs)

theorem insertNM_sorted (nm : NodeMetrics) (l : List NodeMetrics)
    (h : List.Pairwise (fun a b => strLe a.name b.name = true) l) :
    List.Pairwise (fun a b => strLe a.name b.name = true) (insertNM nm l) := by
  induction l with
  | nil => simp [insertNM]
  | cons x xs ih =>
    obtain ⟨hx, hxs⟩ := List.pairwise_cons.mp h
    unfold insertNM
    by_cases hle : strLe nm.name x.name = true
    · rw [if_pos hle]
      refine List.pairwise_cons.mpr ⟨?_, h⟩
      intro b hb
      rcases List.mem_cons.mp hb with hb | hb
      · exact hb ▸ hle
      · exact strLe_trans hle (hx b hb)
    · rw [if_neg hle]
      have hxnm : strLe x.name nm.name = true := by
        have htot := strLe_total nm.name x.name
        rw [Bool.or_eq_true] at htot
        rcases htot with h1 | h1
        · exact absurd h1 hle
        · exact h1
      refine List.pairwise_cons.mpr ⟨?_, ih hxs⟩
      intro b hb
      have hbmem := (insertNM_perm nm xs).mem_iff.mp hb
      rcases List.mem_cons.mp hbmem with hb' | hb'
      · exact hb' ▸ hxnm
      · exact hx b hb'

theorem sortNodeMetrics_sorted (items : List NodeMetrics) :
    List.Pairwise (fun a b : NodeMetrics => strLe a.name b.name = true)
      (sortNodeMetrics items) := by
  unfold sortNodeMetrics
  induction items with
  | nil => simp
  | cons x xs ih =>
    simp only [List.foldr_cons]
    exact insertNM_sorted x _ ih

theorem sortNodeMetrics_perm (items : List NodeMetrics) :
    (sortNodeMetrics items).Perm items := by
  unfold sortNodeMetrics
  induction items with
  | nil => exact List.Perm.refl _
  | cons x xs ih =>
    simp only [List.foldr_cons]
    exact (insertNM_perm x _).trans (ih.cons x)

/-! ### The pod index as a filter of the pod listing -/

theorem foldl_add_apply_ne (l : List Pod) (f : NodePods) (n : String)
    (hn : n ≠ "") :
    (l.foldl NodePods.add f) n =
      f n ++ l.filter fun p => decide (p.nodeName = n) := by
  induction l generalizing f with
  | nil => simp
  | cons p rest ih =>
    simp only [List.foldl_cons]
    rw [ih]
    have hadd : (NodePods.add f p) n =
        f n ++ (if p.nodeName = n then [p] else []) := by
      unfold NodePods.add
      by_cases hp : p.nodeName = ""
      · rw [if_pos hp]
        have hpn : p.nodeName ≠ n := by
          rw [hp]
          exact Ne.symm hn
        rw [if_neg hpn]
        simp
      · rw [if_neg hp]
        show (if n = p.nodeName then f p.nodeName ++ [p] else f n) = _
        by_cases hpn : p.nodeName = n
        · rw [if_pos hpn.symm, if_pos hpn, hpn]
        · rw [if_neg (fun he => hpn he.symm), if_neg hpn]
          simp
    rw [hadd, List.append_assoc]
    congr 1
    by_cases hpn : p.nodeName = n
    · simp [List.filter_cons, hpn]
    · simp [List.filter_cons, hpn]

theorem foldl_add_apply_empty (l : List Pod) (f : NodePods) :
    (l.foldl NodePods.add f) "" = f "" := by
  induction l generalizing f with
  | nil => rfl
  | cons p rest ih =>
    simp only [List.foldl_cons]
    rw [ih]
    unfold NodePods.add
    by_cases hp : p.nodeName = ""
    · rw [if_pos hp]
    · rw [if_neg hp]
      show (if "" = p.nodeName then f p.nodeName ++ [p] else f "") = f ""
      rw [if_neg fun he => hp he.symm]

theorem sum_memoryValue_eq_filterMap (cs : List Container) :
    (cs.map fun c => memoryValue c.requestsMemory).sum =
      (cs.filterMap Container.requestsMemory).sum := by
  induction cs with
  | nil => rfl
  | cons c rest ih =>
    simp only [List.map_cons, List.sum_cons, List.filterMap_cons]
    cases hc : c.requestsMemory with
    | none =>
      rw [ih]
      simp [memoryValue]
    | some v =>
      rw [ih]
      simp [memoryValue]

/-! ### The node-loop trace when every Get succeeds -/

theorem nodeLoopTrace_eq {env : Env} {l : List NodeMetrics}
    (h : ∀ nm ∈ l, ∃ node, env.getNode nm.name = Except.ok node) :
    nodeLoopTrace env l = l.flatMap fun nm =>
      [Event.readNodeGet nm.name, Event.computeNode nm.name] := by
  induction l with
  | nil => rfl
  | cons nm rest ih =>
    obtain ⟨node, hget⟩ := h nm (List.mem_cons_self nm rest)
    simp only [nodeLoopTrace, hget, List.flatMap_cons]
    rw [ih fun nm' hnm' => h nm' (List.mem_cons_of_mem nm hnm')]
    rfl

/-! ### Success of the node loop determines success of every Get -/

theorem processNodes_ok_getNode {env : Env} {additional : Nat}
    {nps : NodePods} {pml : List PodMetrics} {l : List NodeMetrics}
    {res : List NodeRow × List EvictableRow}
    (h : processNodes env additional nps pml l = Except.ok res) :
    ∀ nm ∈ l, ∃ node, env.getNode nm.name = Except.ok node := by
  induction l generalizing res with
  | nil => intro nm hnm; exact absurd hnm (List.not_mem_nil nm)
  | cons nm rest ih =>
    simp only [processNodes] at h
    cases hget : env.getNode nm.name with
    | error e =>
      rw [processNode_err_eq hget, except_bind_err] at h
      exact Except.noConfusion h
    | ok node =>
      simp only [processNode_ok_eq hget, except_bind_ok] at h
      cases hrest : processNodes env additional nps pml rest with
      | error e =>
        rw [hrest, except_bind_err] at h
        exact Except.noConfusion h
      | ok p =>
        intro nm' hnm'
        rcases List.mem_cons.mp hnm' with hh | hh
        · exact ⟨node, hh ▸ hget⟩
        · exact ih hrest nm' hh

theorem except_isOk_iff {ε α : Type} (r : Except ε α) :
    r.isOk = true ↔ ∃ a, r = Except.ok a := by
  cases r <;> simp [Except.isOk, Except.toBool]

/-! ### Claim theorems -/

/-- C1: for every node processed with allocatable memory a, used memory u,
aggregated requests r and additional amount d (all differences within the
int64 range the source computes in, as they are for real memory sizes): the
row satisfies free = a - u, schedulable = a - r, freeWithAdditional =
free - d, schedulableWithAdditional = schedulable - d, and the node is
flagged sufficient exactly when both freeWithAdditional and
schedulableWithAdditional are strictly positive; in particular a node with
freeWithAdditional = 0 is flagged insufficient. -/
theorem C1_headroom (env : Env) (additional : Nat) (nps : NodePods)
    (pml : List PodMetrics) (nm : NodeMetrics) (node : Node)
    (row : NodeRow) (evicts : List EvictableRow)
    (hget : env.getNode nm.name = Except.ok node)
    (h : processNode env additional nps pml nm = Except.ok (row, evicts))
    (hd : (additional : Int) < 2 ^ 63)
    (hfree_lo : -(2 ^ 63) ≤ node.allocatableMemory - nm.usageMemory)
    (hfree_hi : node.allocatableMemory - nm.usageMemory < 2 ^ 63)
    (hsched_lo :
      -(2 ^ 63) ≤ node.allocatableMemory - nps.MemoryRequests node.name)
    (hsched_hi :
      node.allocatableMemory - nps.MemoryRequests node.name < 2 ^ 63)
    (hfwa_lo :
      -(2 ^ 63) ≤ node.allocatableMemory - nm.usageMemory - (additional : Int))
    (hfwa_hi :
      node.allocatableMemory - nm.usageMemory - (additional : Int) < 2 ^ 63)
    (hswa_lo : -(2 ^ 63) ≤
      node.allocatableMemory - nps.MemoryRequests node.name - (additional : Int))
    (hswa_hi :
      node.allocatableMemory - nps.MemoryRequests node.name - (additional : Int)
        < 2 ^ 63) :
    row.free = node.allocatableMemory - nm.usageMemory ∧
    row.schedulable =
      node.allocatableMemory - nps.MemoryRequests node.name ∧
    row.freeWithAdditional = row.free - (additional : Int) ∧
    row.schedulableWithAdditional = row.schedulable - (additional : Int) ∧
    (row.enough = true ↔
      0 < row.freeWithAdditional ∧ 0 < row.schedulableWithAdditional) := by
  rw [processNode_ok_eq hget] at h
  injection h with h
  injection h with hrow hev
  subst hrow
  have ed : int64OfUInt64 additional = (additional : Int) :=
    int64OfUInt64_eq_self hd
  have e1 := wrap64_eq_self hfree_lo hfree_hi
  have e2 := wrap64_eq_self hsched_lo hsched_hi
  have e3 := wrap64_eq_self hfwa_lo hfwa_hi
  have e4 := wrap64_eq_self hswa_lo hswa_hi
  simp only [nodeRowFor, ed, e1, e2, e3, e4]
  refine ⟨trivial, trivial, trivial, trivial, ?_⟩
  simp [Bool.and_eq_true, decide_eq_true_eq]

/-- Witness for C1 at the boundary example of the spec: allocatable 1000,
used 900, requests 950, additional 100 give freeWithAdditional exactly 0 and
an insufficient flag. -/
theorem C1_headroom_witness :
    C1row.freeWithAdditional = C1row.free - ((100 : Nat) : Int) ∧
    (C1row.enough = true ↔
      0 < C1row.freeWithAdditional ∧ 0 < C1row.schedulableWithAdditional) := by
  have h := C1_headroom C1env 100 (NewNodePods [C1pod]) []
    { name := "n", usageMemory := 900 } { name := "n", allocatableMemory := 1000 }
    C1row [] rfl rfl (by decide) (by decide) (by decide) (by decide)
    (by decide) (by decide) (by decide) (by decide) (by decide)
  exact ⟨h.2.2.1, h.2.2.2.2⟩

/-- C2: on a node flagged sufficient no container is ever scanned and no
record is emitted; on a node flagged insufficient, a record is emitted for a
container exactly when the container has a non-zero memory request, its
request compares strictly below its limit, and a pod-metrics entry matching
its namespace, pod name and container name carries a present memory usage
strictly above the request. -/
theorem C2_evictable (env : Env) (additional : Nat) (nps : NodePods)
    (pml : List PodMetrics) (nm : NodeMetrics) (node : Node)
    (row : NodeRow) (evicts : List EvictableRow)
    (hget : env.getNode nm.name = Except.ok node)
    (h : processNode env additional nps pml nm = Except.ok (row, evicts)) :
    (row.enough = true → evicts = []) ∧
    ∀ r, r ∈ evicts ↔
      (row.enough = false ∧
       ∃ pod ∈ nps node.name, ∃ c ∈ pod.containers,
         memoryValue c.requestsMemory ≠ 0 ∧
         memoryValue c.requestsMemory < memoryValue c.limitsMemory ∧
         ∃ pm ∈ pml, pm.ns = pod.ns ∧ pm.name = pod.name ∧
           ∃ pmc ∈ pm.containers, pmc.name = c.name ∧
             ∃ u, pmc.usageMemory = some u ∧
               memoryValue c.requestsMemory < u ∧
               r = { node := node.name, ns := pod.ns, pod := pod.name,
                     container := c.name,
                     requests := memoryValue c.requestsMemory, used := u,
                     limits := memoryValue c.limitsMemory }) := by
  rw [processNode_ok_eq hget] at h
  injection h with h
  injection h with hrow hev
  subst hrow
  subst hev
  unfold nodeEvictsFor
  by_cases he : (nodeRowFor additional nps nm node).enough = true
  · rw [if_pos he]
    refine ⟨fun _ => rfl, ?_⟩
    intro r
    simp [he]
  · rw [if_neg he]
    simp only [Bool.not_eq_true] at he
    refine ⟨fun hcontra => by rw [he] at hcontra; exact Bool.noConfusion hcontra, ?_⟩
    intro r
    simp only [he, eq_self_iff_true, true_and, mem_scanNode, mem_scanContainer]

/-- Witness for C2: the container of the spec example (request 100, limit
500, live usage 150) on an insufficient node yields exactly its evictable
record, with the node flagged insufficient. -/
theorem C2_evictable_witness :
    C2row.enough = false ∧ C2rec ∈ [C2rec] := by
  have h := C2_evictable C2env 0 (NewNodePods [C2pod]) [C2pm]
    { name := "n", usageMemory := 1000 } { name := "n", allocatableMemory := 0 }
    C2row [C2rec] rfl rfl
  refine ⟨rfl, ?_⟩
  exact (h.2 C2rec).mpr ⟨rfl, C2pod, by decide, C2c, by decide, by decide,
    by decide, C2pm, by decide, rfl, rfl, C2pmc, by decide, rfl, 150, rfl,
    by decide, rfl⟩

/-- C3: the pod index holds nothing under the empty node name (pods lacking
an assigned node are dropped); under any non-empty node name it holds
exactly the pods of the listing assigned to that node, in order; the
aggregate equals the sum of the declared memory requests of the containers
of those pods, where containers lacking a request contribute nothing; and a
node with no indexed pods aggregates to exactly zero. -/
theorem C3_requests (podList : List Pod) (n : String) :
    NewNodePods podList "" = [] ∧
    (n ≠ "" → NewNodePods podList n =
      podList.filter fun p => decide (p.nodeName = n)) ∧
    (n ≠ "" → (NewNodePods podList).MemoryRequests n =
      ((podList.filter fun p => decide (p.nodeName = n)).map fun pod =>
        (pod.containers.filterMap Container.requestsMemory).sum).sum) ∧
    ((∀ p ∈ podList, p.nodeName ≠ n) →
      (NewNodePods podList).MemoryRequests n = 0) := by
  have hempty : NewNodePods podList "" = [] :=
    foldl_add_apply_empty podList _
  have hfilter : ∀ _ : n ≠ "", NewNodePods podList n =
      podList.filter fun p => decide (p.nodeName = n) := fun hn => by
    unfold NewNodePods
    rw [foldl_add_apply_ne podList _ n hn]
    exact List.nil_append _
  refine ⟨hempty, hfilter, ?_, ?_⟩
  · intro hn
    unfold NodePods.MemoryRequests
    rw [hfilter hn]
    have hsum : ∀ pod : Pod,
        (pod.containers.map fun c => memoryValue c.requestsMemory).sum =
          (pod.containers.filterMap Container.requestsMemory).sum :=
      fun pod => sum_memoryValue_eq_filterMap pod.containers
    simp only [hsum]
  · intro hall
    by_cases hn : n = ""
    · subst hn
      unfold NodePods.MemoryRequests
      rw [hempty]
      rfl
    · unfold NodePods.MemoryRequests
      rw [hfilter hn]
      have hnil : podList.filter (fun p => decide (p.nodeName = n)) = [] := by
        rw [List.filter_eq_nil_iff]
        intro p hp
        simpa using hall p hp
      rw [hnil]
      rfl

/-- Witness for C3: on the concrete pod listing, node n1 aggregates to 5
(the absent request of its second container contributes nothing, the pod
with no assigned node is excluded), and node n2, with no pods, aggregates to
exactly 0. -/
theorem C3_requests_witness :
    (NewNodePods C3pods).MemoryRequests "n1" = 5 ∧
    (NewNodePods C3pods).MemoryRequests "n2" = 0 := by
  have h1 := (C3_requests C3pods "n1").2.2.1 (by decide)
  have h2 := (C3_requests C3pods "n2").2.2.2 (by decide)
  refine ⟨?_, h2⟩
  rw [h1]
  decide

/-- C9: a container that declares a positive memory request but no memory
limit is never emitted as an evictable candidate: the absent limit is read
as a zero-valued quantity, so the request-at-least-limit skip fires for
every positive request, whatever the metrics hold. -/
theorem C9_no_limit (pml : List PodMetrics) (nodeName : String) (pod : Pod)
    (c : Container) (v : Int)
    (hreq : c.requestsMemory = some v) (hpos : 0 < v)
    (hlim : c.limitsMemory = none) :
    scanContainer pml nodeName pod c = [] := by
  have h0 : memoryValue c.requestsMemory = v := by simp [hreq, memoryValue]
  have h1 : memoryValue c.limitsMemory = 0 := by simp [hlim, memoryValue]
  simp only [scanContainer, h0, h1]
  rw [if_neg hpos.ne', if_pos hpos.le]

/-- Witness for C9: a container requesting 5 bytes with no limit is not
reported even against a matching metrics entry using 999 bytes. -/
theorem C9_no_limit_witness :
    scanContainer [C9pm] "n" C9pod C9c = [] :=
  C9_no_limit [C9pm] "n" C9pod C9c 5 rfl (by decide) rfl

/-- The inner metrics-container loop emits one row per matching entry with a
present usage above the request. -/
theorem scanInnerLength (nodeName : String) (pod : Pod) (c : Container)
    (cs : List ContainerMetrics) :
    (cs.flatMap fun pmc =>
      if pmc.name ≠ c.name then []
      else
        match pmc.usageMemory with
        | none => []
        | some memUsed =>
          if memoryValue c.requestsMemory < memUsed then
            [({ node := nodeName, ns := pod.ns, pod := pod.name,
                container := c.name,
                requests := memoryValue c.requestsMemory, used := memUsed,
                limits := memoryValue c.limitsMemory } : EvictableRow)]
          else []).length =
    cs.countP fun pmc =>
      decide (pmc.name = c.name) &&
        match pmc.usageMemory with
        | some u => decide (memoryValue c.requestsMemory < u)
        | none => false := by
  induction cs with
  | nil => rfl
  | cons pmc crest cih =>
    simp only [List.flatMap_cons, List.length_append, List.countP_cons]
    rw [cih, Nat.add_comm]
    congr 1
    by_cases hcn : pmc.name = c.name
    · rw [if_neg (by simp [hcn])]
      cases hu : pmc.usageMemory with
      | none => simp [hcn]
      | some u =>
        by_cases hlt : memoryValue c.requestsMemory < u
        · simp [hcn, hlt]
        · simp [hcn, hlt]
    · rw [if_pos (by simp [hcn])]
      simp [hcn]

/-- C4 counterexample: in a single run whose pod-metrics listing holds the
same matching entry twice, the single container of the single pod yields two
evictable records, so the scan does not stop at the first match and more
than one record per container can be emitted per run. -/
theorem C4_counterexample :
    Except.map Output.evictableRows (run C4env) =
      Except.ok [C2rec, C2rec] := by rfl

/-- C4 (amended): the lookup is a linear scan of the per-pod metrics list
with no break: for a container passing the request and limit guards, the
number of records emitted equals the number of matching metrics container
entries (matching namespace, pod name and container name) with a present
usage strictly above the request — one record per matching entry, so
several matching entries yield several records for the same container. -/
theorem C4_scan_matches (pml : List PodMetrics) (nodeName : String)
    (pod : Pod) (c : Container)
    (hreq : memoryValue c.requestsMemory ≠ 0)
    (hlim : memoryValue c.requestsMemory < memoryValue c.limitsMemory) :
    (scanContainer pml nodeName pod c).length =
      overRequestMatches pml pod c := by
  unfold scanContainer overRequestMatches
  rw [if_neg hreq, if_neg (not_le.mpr hlim)]
  induction pml with
  | nil => rfl
  | cons pm rest ih =>
    simp only [List.flatMap_cons, List.length_append, List.map_cons,
      List.sum_cons]
    rw [ih]
    congr 1
    by_cases hns : pm.ns = pod.ns
    · by_cases hname : pm.name = pod.name
      · rw [if_neg (by simp [hns]), if_neg (by simp [hname]),
          if_pos ⟨hns, hname⟩]
        exact scanInnerLength nodeName pod c pm.containers
      · simp [hns, hname]
    · simp [hns]

/-- Witness for C4 (amended): two identical matching entries give scan
length 2, matching the match count 2. -/
theorem C4_scan_matches_witness :
    (scanContainer [C2pm, C2pm] "n" C2pod C2c).length = 2 ∧
    overRequestMatches [C2pm, C2pm] C2pod C2c = 2 := by
  have h := C4_scan_matches [C2pm, C2pm] "n" C2pod C2c (by decide) (by decide)
  exact ⟨by rw [h]; decide, by decide⟩

/-- C6 counterexample: with two nodes in the metrics listing, the run trace
interleaves the per-node Get read with the computation loop, so it is not
the case that every cluster read happens before any headroom computation. -/
theorem C6_counterexample : readsUpFront (runTrace C6env) = false := by rfl

/-- C6 (amended): the three list reads (node metrics, pod metrics, pods)
happen up front, before any computation; but nodes are never listed up
front: each node is read with a per-node Get interleaved with the loop,
immediately before that node is computed. -/
theorem C6_trace (env : Env) (items : List NodeMetrics)
    (podMetricsList : List PodMetrics) (podList : List Pod)
    (hp : env.parseBytes.isOk = true)
    (hc : env.buildConfigFromFlags.isOk = true)
    (hk : env.newKubernetesClient.isOk = true)
    (hm : env.newMetricsClient.isOk = true)
    (hnm : env.listNodeMetrics = Except.ok items)
    (hpm : env.listPodMetrics = Except.ok podMetricsList)
    (hpl : env.listPods = Except.ok podList)
    (hg : ∀ nm ∈ sortNodeMetrics items, ∃ node,
      env.getNode nm.name = Except.ok node) :
    runTrace env = Event.readNodeMetricsList :: Event.readPodMetricsList ::
      Event.readPodList :: (sortNodeMetrics items).flatMap fun nm =>
        [Event.readNodeGet nm.name, Event.computeNode nm.name] := by
  unfold runTrace
  rw [if_neg (by simp [hp, hc, hk, hm])]
  simp only [hnm, hpm, hpl]
  rw [nodeLoopTrace_eq hg]

/-- Witness for C6 (amended): the concrete two-node trace. -/
theorem C6_trace_witness :
    runTrace C6env = [Event.readNodeMetricsList, Event.readPodMetricsList,
      Event.readPodList, Event.readNodeGet "a", Event.computeNode "a",
      Event.readNodeGet "b", Event.computeNode "b"] := by
  have h := C6_trace C6env [{ name := "a", usageMemory := 0 },
    { name := "b", usageMemory := 0 }] [] [] rfl rfl rfl rfl rfl rfl rfl
    (fun nm _ => ⟨{ name := nm.name, allocatableMemory := 0 }, rfl⟩)
  rw [h]
  rfl

/-- C7: the summary rows of a successful run appear in strictly ascending
order of node name, deterministic for the input snapshot, given that the
node-metrics listing carries pairwise distinct node names (as cluster node
names are): the node loop runs over the items sorted ascending by name. -/
theorem C7_sorted (env : Env) (out : Output) (items : List NodeMetrics)
    (h : run env = Except.ok out)
    (hitems : env.listNodeMetrics = Except.ok items)
    (hnd : (items.map NodeMetrics.name).Nodup) :
    List.Chain' (fun a b => strLt a b = true)
      (out.nodeRows.map NodeRow.name) := by
  obtain ⟨additional, items', pml, podList, rows, evicts,
    hp, hnm, hpm, hpl, hn, hout⟩ := run_ok_inv h
  rw [hitems] at hnm
  injection hnm with hnm
  subst hnm
  subst hout
  obtain ⟨hnames, -⟩ := processNodes_ok_inv hn
  show List.Chain' _ (rows.map NodeRow.name)
  rw [hnames]
  have hpw := sortNodeMetrics_sorted items
  have hperm := sortNodeMetrics_perm items
  have hnd' : ((sortNodeMetrics items).map NodeMetrics.name).Nodup :=
    ((hperm.map NodeMetrics.name).nodup_iff).mpr hnd
  have hpw' : List.Pairwise (fun a b : String => strLe a b = true)
      ((sortNodeMetrics items).map NodeMetrics.name) :=
    (List.pairwise_map).mpr hpw
  exact ((hpw'.and hnd').imp fun hab =>
    strLt_of_strLe_of_ne hab.1 hab.2).chain'

/-- Witness for C7: a listing given in the order b, a produces rows in the
strictly ascending order a, b. -/
theorem C7_sorted_witness :
    List.Chain' (fun a b => strLt a b = true)
      (C7out.nodeRows.map NodeRow.name) :=
  C7_sorted C7env C7out [{ name := "b", usageMemory := 0 },
    { name := "a", usageMemory := 0 }] rfl rfl (by decide)

theorem isOk_ok {ε α : Type} (a : α) :
    (Except.ok a : Except ε α).isOk = true := rfl

theorem run_ok_of_envAllOk {env : Env} (h : envAllOk env) :
    ∃ out, run env = Except.ok out := by
  obtain ⟨h1, h2, h3, h4, h5, h6, h7, h8⟩ := h
  obtain ⟨additional, hp⟩ := (except_isOk_iff _).mp h1
  obtain ⟨u1, hc⟩ := (except_isOk_iff _).mp h2
  obtain ⟨u2, hk⟩ := (except_isOk_iff _).mp h3
  obtain ⟨u3, hm⟩ := (except_isOk_iff _).mp h4
  obtain ⟨items, hnm⟩ := (except_isOk_iff _).mp h5
  obtain ⟨pml, hpm⟩ := (except_isOk_iff _).mp h6
  obtain ⟨podList, hpl⟩ := (except_isOk_iff _).mp h7
  have hg : ∀ nm ∈ sortNodeMetrics items, ∃ node,
      env.getNode nm.name = Except.ok node := by
    intro nm hmem
    have hok := h8 nm (by unfold sortedMetricsOf; rw [hnm]; exact hmem)
    exact (except_isOk_iff _).mp hok
  obtain ⟨res, hres⟩ := @processNodes_isOk env additional
    (NewNodePods podList) pml (sortNodeMetrics items) hg
  refine ⟨⟨res.1, res.2⟩, ?_⟩
  simp only [run, hp, hc, hk, hm, hnm, hpm, hpl, except_bind_ok, hres,
    except_pure]

theorem run_error_imp {env : Env} {e : String}
    (h : run env = Except.error e) : envHasError env e := by
  simp only [run] at h
  cases hp : env.parseBytes with
  | error e' =>
    rw [hp, except_bind_err] at h
    injection h with h
    exact Or.inl (by rw [hp, h])
  | ok additional =>
  simp only [hp, except_bind_ok] at h
  cases hc : env.buildConfigFromFlags with
  | error e' =>
    rw [hc, except_bind_err] at h
    injection h with h
    exact Or.inr (Or.inl (by rw [hc, h]))
  | ok u1 =>
  simp only [hc, except_bind_ok] at h
  cases hk : env.newKubernetesClient with
  | error e' =>
    rw [hk, except_bind_err] at h
    injection h with h
    exact Or.inr (Or.inr (Or.inl (by rw [hk, h])))
  | ok u2 =>
  simp only [hk, except_bind_ok] at h
  cases hm : env.newMetricsClient with
  | error e' =>
    rw [hm, except_bind_err] at h
    injection h with h
    exact Or.inr (Or.inr (Or.inr (Or.inl (by rw [hm, h]))))
  | ok u3 =>
  simp only [hm, except_bind_ok] at h
  cases hnm : env.listNodeMetrics with
  | error e' =>
    rw [hnm, except_bind_err] at h
    injection h with h
    exact Or.inr (Or.inr (Or.inr (Or.inr (Or.inl (by rw [hnm, h])))))
  | ok items =>
  simp only [hnm, except_bind_ok] at h
  cases hpm : env.listPodMetrics with
  | error e' =>
    rw [hpm, except_bind_err] at h
    injection h with h
    exact Or.inr (Or.inr (Or.inr (Or.inr (Or.inr (Or.inl (by rw [hpm, h]))))))
  | ok pml =>
  simp only [hpm, except_bind_ok] at h
  cases hpl : env.listPods with
  | error e' =>
    rw [hpl, except_bind_err] at h
    injection h with h
    exact Or.inr (Or.inr (Or.inr (Or.inr (Or.inr (Or.inr (Or.inl
      (by rw [hpl, h])))))))
  | ok podList =>
  simp only [hpl, except_bind_ok] at h
  cases hn : processNodes env additional (NewNodePods podList) pml
      (sortNodeMetrics items) with
  | error e' =>
    rw [hn, except_bind_err] at h
    injection h with h
    subst h
    obtain ⟨nm, hmem, hget⟩ := processNodes_error hn
    refine Or.inr (Or.inr (Or.inr (Or.inr (Or.inr (Or.inr (Or.inr
      ⟨nm, ?_, hget⟩))))))
    unfold sortedMetricsOf
    rw [hnm]
    exact hmem
  | ok res =>
    rw [hn, except_bind_ok] at h
    exact Except.noConfusion h

theorem run_error_of_not_envAllOk {env : Env} (h : ¬ envAllOk env) :
    ∃ e, run env = Except.error e := by
  cases hp : env.parseBytes with
  | error e => exact ⟨e, by simp only [run, hp, except_bind_err]⟩
  | ok additional =>
  cases hc : env.buildConfigFromFlags with
  | error e =>
    exact ⟨e, by simp only [run, hp, hc, except_bind_ok, except_bind_err]⟩
  | ok u1 =>
  cases hk : env.newKubernetesClient with
  | error e =>
    exact ⟨e, by simp only [run, hp, hc, hk, except_bind_ok, except_bind_err]⟩
  | ok u2 =>
  cases hm : env.newMetricsClient with
  | error e =>
    exact ⟨e, by simp only [run, hp, hc, hk, hm, except_bind_ok,
      except_bind_err]⟩
  | ok u3 =>
  cases hnm : env.listNodeMetrics with
  | error e =>
    exact ⟨e, by simp only [run, hp, hc, hk, hm, hnm, except_bind_ok,
      except_bind_err]⟩
  | ok items =>
  cases hpm : env.listPodMetrics with
  | error e =>
    exact ⟨e, by simp only [run, hp, hc, hk, hm, hnm, hpm, except_bind_ok,
      except_bind_err]⟩
  | ok pml =>
  cases hpl : env.listPods with
  | error e =>
    exact ⟨e, by simp only [run, hp, hc, hk, hm, hnm, hpm, hpl,
      except_bind_ok, except_bind_err]⟩
  | ok podList =>
  cases hn : processNodes env additional (NewNodePods podList) pml
      (sortNodeMetrics items) with
  | error e =>
    exact ⟨e, by simp only [run, hp, hc, hk, hm, hnm, hpm, hpl,
      except_bind_ok, hn, except_bind_err]⟩
  | ok res =>
  exfalso
  apply h
  refine ⟨by rw [hp]; exact isOk_ok _, by rw [hc]; exact isOk_ok _,
    by rw [hk]; exact isOk_ok _, by rw [hm]; exact isOk_ok _,
    by rw [hnm]; exact isOk_ok _, by rw [hpm]; exact isOk_ok _,
    by rw [hpl]; exact isOk_ok _, ?_⟩
  intro nm hmem
  have hmem' : nm ∈ sortNodeMetrics items := by
    unfold sortedMetricsOf at hmem
    rw [hnm] at hmem
    exact hmem
  obtain ⟨node, hget⟩ := processNodes_ok_getNode hn nm hmem'
  rw [hget]
  exact isOk_ok _

/-- C8: when every external call succeeds the run produces an output and no
error; when the run fails, the error it aborts with is the underlying error
of one of the external calls; and when any external call the run performs
fails, the run aborts with such an underlying error — output exists only on
the success branch, so no partial results accompany an error. -/
theorem C8_fail_fast (env : Env) :
    (envAllOk env → ∃ out, run env = Except.ok out) ∧
    (∀ e, run env = Except.error e → envHasError env e) ∧
    (¬ envAllOk env →
      ∃ e, run env = Except.error e ∧ envHasError env e) := by
  refine ⟨run_ok_of_envAllOk, fun e he => run_error_imp he, fun hno => ?_⟩
  obtain ⟨e, he⟩ := run_error_of_not_envAllOk hno
  exact ⟨e, he, run_error_imp he⟩

/-- Witness for C8: a failing pod listing aborts the whole run with its
underlying error message. -/
theorem C8_fail_fast_witness : run C8env = Except.error "boom" := by
  obtain ⟨e, he, herr⟩ := (C8_fail_fast C8env).2.2
    (fun hall => Bool.noConfusion hall.2.2.2.2.2.2.1)
  rcases herr with hx | hx | hx | hx | hx | hx | hx | ⟨nm, hmem, hx⟩
  · exact Except.noConfusion hx
  · exact Except.noConfusion hx
  · exact Except.noConfusion hx
  · exact Except.noConfusion hx
  · exact Except.noConfusion hx
  · exact Except.noConfusion hx
  · injection hx with hx
    rw [he, ← hx]
  · exact Except.noConfusion hx

/-- C10: report coverage is driven by the node-metrics listing: a successful
run yields exactly one summary row per listed item (its names a permutation
of the listed names), and a node name absent from the listing appears
neither as a summary row nor as the node of an evictable record (given the
cluster invariant that Get returns the node it was asked for). -/
theorem C10_coverage (env : Env) (out : Output) (items : List NodeMetrics)
    (h : run env = Except.ok out)
    (hitems : env.listNodeMetrics = Except.ok items)
    (hget : ∀ n node, env.getNode n = Except.ok node → node.name = n) :
    out.nodeRows.length = items.length ∧
    (out.nodeRows.map NodeRow.name).Perm (items.map NodeMetrics.name) ∧
    ∀ n, n ∉ items.map NodeMetrics.name →
      (∀ row ∈ out.nodeRows, row.name ≠ n) ∧
      ∀ r ∈ out.evictableRows, r.node ≠ n := by
  obtain ⟨additional, items', pml, podList, rows, evicts,
    hp, hnm, hpm, hpl, hn, hout⟩ := run_ok_inv h
  rw [hitems] at hnm
  injection hnm with hnm
  subst hnm
  subst hout
  obtain ⟨hnames, hevicts⟩ := processNodes_ok_inv hn
  have hperm : (rows.map NodeRow.name).Perm (items.map NodeMetrics.name) := by
    rw [hnames]
    exact (sortNodeMetrics_perm items).map NodeMetrics.name
  refine ⟨?_, hperm, ?_⟩
  · have hlen := hperm.length_eq
    simpa using hlen
  · intro n hnmem
    constructor
    · intro row hrow hcontra
      exact hnmem (hcontra ▸
        hperm.mem_iff.mp (List.mem_map_of_mem NodeRow.name hrow))
    · intro r hr hcontra
      obtain ⟨nm, hmemnm, node, hgetnm, hmem⟩ := hevicts r hr
      have hnode : node.name = nm.name := hget nm.name node hgetnm
      have hrn : r.node = nm.name := by
        unfold nodeEvictsFor at hmem
        split at hmem
        · exact absurd hmem (List.not_mem_nil r)
        · rw [scanNode_node hmem, hnode]
      apply hnmem
      rw [← hcontra, hrn]
      exact ((sortNodeMetrics_perm items).map NodeMetrics.name).mem_iff.mp
        (List.mem_map_of_mem NodeMetrics.name hmemnm)

/-- Witness for C10: with only node a listed, the run yields one row, and
node zz (which holds a pod but is absent from the listing) appears in
neither table. -/
theorem C10_coverage_witness :
    C10out.nodeRows.length = 1 ∧
    (∀ row ∈ C10out.nodeRows, row.name ≠ "zz") ∧
    ∀ r ∈ C10out.evictableRows, r.node ≠ "zz" := by
  have h := C10_coverage C10env C10out [{ name := "a", usageMemory := 5 }]
    rfl rfl (fun n node hh => by injection hh with hh; rw [← hh])
  have habs := h.2.2 "zz" (by decide)
  exact ⟨h.1, habs.1, habs.2⟩

end Kubecap
